import Mathlib

/- Verification development for the plumb terminal pager.
   The Go source consists of two prototypes in one file: an escape-sequence
   prototype providing the key decoder readKey, and a termbox prototype
   providing the line store (lineReader), the viewport controller
   (moveCursor, keypress) and the renderer (draw).  Bytes are modelled as
   natural numbers, Go int fields as integers, and the termbox cell grid as
   lists of cells. -/

namespace Plumb

/-- A line store line is a byte sequence; bytes are naturals below 256. -/
abbrev GoBytes := List Nat

/-- Embedding of the Go lineReader struct: the ordered list of lines.
The mutex only guards concurrent access and has no sequential content. -/
structure LineReader where
  lines : List GoBytes
deriving DecidableEq

/-- One iteration of the byte loop in lineReader.Write for a non-newline
byte: append the byte to the last line (Go: l.lines[last] = append(...)). -/
def pushByte : List GoBytes → Nat → List GoBytes
  | [], _ => []
  | [last], b => [last ++ [b]]
  | l :: rest, b => l :: pushByte rest b

/-- One iteration of the byte loop in lineReader.Write: a newline starts a
fresh empty line, any other byte extends the last line. -/
def lineWriteStep (lines : List GoBytes) (b : Nat) : List GoBytes :=
  if b = 10 then lines ++ [[]] else pushByte lines b

/-- The byte loop of lineReader.Write over a whole buffer. -/
def writeBytes (lines : List GoBytes) (p : GoBytes) : List GoBytes :=
  p.foldl lineWriteStep lines

/-- Embedding of lineReader.Write: if the store is empty an initial empty
line is materialised, then every byte of p is processed in order. -/
def LineReader.Write (l : LineReader) (p : GoBytes) : LineReader :=
  ⟨writeBytes (if l.lines.isEmpty then [[]] else l.lines) p⟩

/-- Embedding of lineReader.Line: index i at or past the current number of
lines yields the not-found error (modelled as none); Line does not mutate
the store, so it is a pure projection here. -/
def LineReader.Line (l : LineReader) (i : Nat) : Option GoBytes :=
  if l.lines.length ≤ i then none else l.lines.get? i

/-- Embedding of lineReader.Rows: the current number of lines. -/
def LineReader.Rows (l : LineReader) : Nat :=
  l.lines.length

/-- A sequence of Write calls against a store. -/
def writeAll (l : LineReader) (ps : List GoBytes) : LineReader :=
  ps.foldl LineReader.Write l

/- ---------------------------------------------------------------- -/
/- Key decoder (escape-sequence prototype).                          -/
/- ---------------------------------------------------------------- -/

/-- The two error values readKey can surface: an io error from the byte
source (EOF), or the decoder error with message could not read sequence. -/
inductive RErr where
  | eof : RErr
  | badSeq : RErr
deriving DecidableEq

/-- Key constant ArrowLeft (Go: iota + 10000). -/
def ArrowLeft : Int := 10000

/-- Key constant ArrowRight. -/
def ArrowRight : Int := 10001

/-- Key constant ArrowDown. -/
def ArrowDown : Int := 10002

/-- Key constant ArrowUp. -/
def ArrowUp : Int := 10003

/-- Key constant DelKey. -/
def DelKey : Int := 10004

/-- Key constant HomeKey. -/
def HomeKey : Int := 10005

/-- Key constant EndKey. -/
def EndKey : Int := 10006

/-- Key constant PageUp. -/
def PageUp : Int := 10007

/-- Key constant PageDown. -/
def PageDown : Int := 10008

/-- UTF-8 decoding of one rune from a byte list, following Go
unicode/utf8.DecodeRune as used by bufio.ReadRune: ASCII decodes to
itself with size 1; well-formed multibyte sequences decode to their code
point; anything else (invalid lead byte, bad continuation, short input,
overlong form, surrogate range) yields the replacement rune 65533 with
size 1.  Returns (rune, size). -/
def decodeRune (l : List Nat) : Nat × Nat :=
  match l with
  | [] => (65533, 0)
  | b0 :: rest =>
    if b0 < 128 then (b0, 1)
    else if 194 ≤ b0 ∧ b0 ≤ 223 then
      match rest with
      | b1 :: _ =>
        if 128 ≤ b1 ∧ b1 ≤ 191 then ((b0 % 32) * 64 + b1 % 64, 2)
        else (65533, 1)
      | [] => (65533, 1)
    else if 224 ≤ b0 ∧ b0 ≤ 239 then
      match rest with
      | b1 :: b2 :: _ =>
        if (if b0 = 224 then 160 ≤ b1 ∧ b1 ≤ 191
            else if b0 = 237 then 128 ≤ b1 ∧ b1 ≤ 159
            else 128 ≤ b1 ∧ b1 ≤ 191) ∧ 128 ≤ b2 ∧ b2 ≤ 191 then
          ((b0 % 16) * 4096 + (b1 % 64) * 64 + b2 % 64, 3)
        else (65533, 1)
      | _ => (65533, 1)
    else if 240 ≤ b0 ∧ b0 ≤ 244 then
      match rest with
      | b1 :: b2 :: b3 :: _ =>
        if (if b0 = 240 then 144 ≤ b1 ∧ b1 ≤ 191
            else if b0 = 244 then 128 ≤ b1 ∧ b1 ≤ 143
            else 128 ≤ b1 ∧ b1 ≤ 191) ∧
            (128 ≤ b2 ∧ b2 ≤ 191) ∧ 128 ≤ b3 ∧ b3 ≤ 191 then
          ((b0 % 8) * 262144 + (b1 % 64) * 4096 + (b2 % 64) * 64 + b3 % 64, 4)
        else (65533, 1)
      | _ => (65533, 1)
    else (65533, 1)

/-- bufio.ReadRune over a byte list: fails (none) exactly when the source
is exhausted, otherwise decodes one rune and returns it with the rest. -/
def readRune (l : List Nat) : Option (Nat × List Nat) :=
  match l with
  | [] => none
  | _ => some ((decodeRune l).1, l.drop (decodeRune l).2)

/-- Embedding of readKey over the available input bytes.  The first rune is
read with ReadRune; a non-escape rune is returned directly.  After an
escape, in.Read(seq) is modelled by how many bytes remain: none is an io
error, one is the could-not-read-sequence error, two or more delivers the
two continuation bytes.  The extended digit sequences read one further rune
for the tilde terminator.  Result is (rune, error). -/
def readKey (l : List Nat) : Int × Option RErr :=
  match readRune l with
  | none => (0, some RErr.eof)
  | some (r, rest) =>
    if r ≠ 27 then ((r : Int), none)
    else
      match rest with
      | [] => (-1, some RErr.eof)
      | [_] => (-1, some RErr.badSeq)
      | b1 :: b2 :: rest2 =>
        if b1 = 91 then
          if 48 ≤ b2 ∧ b2 ≤ 57 then
            match readRune rest2 with
            | none => (27, some RErr.eof)
            | some (rc, _) =>
              if rc ≠ 126 then (27, none)
              else if b2 = 49 then (HomeKey, none)
              else if b2 = 51 then (DelKey, none)
              else if b2 = 52 then (EndKey, none)
              else if b2 = 53 then (PageUp, none)
              else if b2 = 54 then (PageDown, none)
              else if b2 = 55 then (HomeKey, none)
              else if b2 = 56 then (EndKey, none)
              else (27, none)
          else
            if b2 = 65 then (ArrowUp, none)
            else if b2 = 66 then (ArrowDown, none)
            else if b2 = 67 then (ArrowRight, none)
            else if b2 = 68 then (ArrowLeft, none)
            else if b2 = 72 then (HomeKey, none)
            else if b2 = 70 then (EndKey, none)
            else (27, none)
        else if b1 = 79 then
          if b2 = 72 then (HomeKey, none)
          else if b2 = 70 then (EndKey, none)
          else (27, none)
        else (27, none)

/-- A pair of continuation bytes after an escape that the decoder
recognises as introducing a known sequence. -/
def recognizedPair (b1 b2 : Nat) : Prop :=
  (b1 = 91 ∧ ((48 ≤ b2 ∧ b2 ≤ 57) ∨ b2 = 65 ∨ b2 = 66 ∨ b2 = 67 ∨
    b2 = 68 ∨ b2 = 72 ∨ b2 = 70)) ∨
  (b1 = 79 ∧ (b2 = 72 ∨ b2 = 70))

instance (b1 b2 : Nat) : Decidable (recognizedPair b1 b2) := by
  unfold recognizedPair
  exact inferInstance

/- ---------------------------------------------------------------- -/
/- Viewport controller (termbox prototype).                          -/
/- ---------------------------------------------------------------- -/

/-- The mutable navigation fields of the terminal struct: cursor column,
cursor row, selected line index and top visible line index.  The geometry
field rows and the line count are passed as parameters where the Go
methods read them from the struct and the store. -/
structure Term where
  cx : Int
  cy : Int
  selline : Int
  topline : Int
deriving DecidableEq

/-- The key events keypress dispatches on in the termbox prototype. -/
inductive Key where
  | arrowUp : Key
  | arrowDown : Key
  | pgUp : Key
  | pgDn : Key
  | enter : Key
  | ctrlQ : Key
  | other : Key
deriving DecidableEq

/-- Embedding of terminal.moveCursor; rows is the terminal height field and
n the current value of the line store count (t.stdin.Rows()). -/
def moveCursor (rows : Int) (n : Nat) (k : Key) (t : Term) : Term :=
  match k with
  | Key.arrowUp =>
    if t.selline = 0 then t
    else if t.topline = 0 then
      { t with cy := t.cy - 1, selline := t.selline - 1 }
    else
      let t1 : Term := { t with selline := t.selline - 1 }
      if t1.cy = 0 then { t1 with topline := t1.topline - 1 }
      else { t1 with cy := t1.cy - 1 }
  | Key.arrowDown =>
    if t.selline ≥ (n : Int) - 1 then t
    else if t.topline ≥ (n : Int) - 1 then t
    else
      let t1 : Term := { t with selline := t.selline + 1 }
      if t1.cy ≥ rows - 1 then { t1 with topline := t1.topline + 1 }
      else { t1 with cy := t1.cy + 1 }
  | _ => t

/-- The counted for loop in the page-key branch of keypress: apply f
as many times as the loop body runs. -/
def timesLoop (f : Term → Term) : Nat → Term → Term
  | 0, t => t
  | k + 1, t => timesLoop f k (f t)

/-- The state effect of one keypress dispatch in the termbox prototype:
arrow keys call moveCursor once, page keys call it t.rows times in a loop,
every other event leaves the navigation state unchanged. -/
def keypressMove (rows : Int) (n : Nat) (ev : Key) (t : Term) : Term :=
  match ev with
  | Key.arrowUp => moveCursor rows n Key.arrowUp t
  | Key.arrowDown => moveCursor rows n Key.arrowDown t
  | Key.pgUp => timesLoop (moveCursor rows n Key.arrowUp) rows.toNat t
  | Key.pgDn => timesLoop (moveCursor rows n Key.arrowDown) rows.toNat t
  | _ => t

/-- States reachable from the all-zero initial terminal state by any
sequence of keypress dispatches, with the line store count free to take
any value at each event (data arrives concurrently). -/
inductive Reachable (rows : Int) : Term → Prop where
  | init : Reachable rows ⟨0, 0, 0, 0⟩
  | step {t : Term} (k : Key) (n : Nat) :
      Reachable rows t → Reachable rows (keypressMove rows n k t)

/-- The coupling invariant maintained by the controller: the cursor row is
the offset of the selection inside the window, the top line is
nonnegative, and the cursor row stays within the terminal height. -/
def Inv (rows : Int) (t : Term) : Prop :=
  t.cy = t.selline - t.topline ∧ 0 ≤ t.topline ∧ 0 ≤ t.cy ∧ t.cy ≤ rows - 1

/- ---------------------------------------------------------------- -/
/- Renderer (termbox prototype).                                     -/
/- ---------------------------------------------------------------- -/

/-- One termbox screen cell: the rune and the foreground and background
attributes passed to SetCell.  termbox.ColorDefault is 0. -/
structure Cell where
  ch : Nat
  fg : Nat
  bg : Nat
deriving DecidableEq

/-- The blank cell written by the padding and blank-row loops of draw. -/
def spaceCell : Cell :=
  ⟨32, 0, 0⟩

/-- The rune loop of draw over one line: a tab emits eight space cells,
any other rune emits one cell, all with default attributes. -/
def expandLine : GoBytes → List Cell
  | [] => []
  | r :: rest =>
    if r = 9 then List.replicate 8 spaceCell ++ expandLine rest
    else ⟨r, 0, 0⟩ :: expandLine rest

/-- One screen row of draw: a missing line is rendered as a full row of
blanks, a present line is expanded and right-padded with blanks to the
terminal width.  Cells the loop would write past the width are kept in the
list; termbox ignores them. -/
def drawRow (cols : Nat) (store : LineReader) (top y : Nat) : List Cell :=
  match store.Line (y + top) with
  | none => List.replicate cols spaceCell
  | some line =>
    let cells := expandLine line
    cells ++ List.replicate (cols - cells.length) spaceCell

/-- A rendered frame: the grid of cells and the cursor position passed to
SetCursor. -/
structure Frame where
  grid : List (List Cell)
  cursorX : Int
  cursorY : Int
deriving DecidableEq

/-- Embedding of terminal.draw: rows and cols are the current terminal
size, the grid is drawn row by row from the store starting at the top
line, and the cursor is placed at (cx, cy).  The top line is read through
toNat; the controller invariant keeps it nonnegative (a negative index
would make the Go code panic, not render). -/
def draw (rows cols : Nat) (store : LineReader) (t : Term) : Frame :=
  ⟨(List.range rows).map (drawRow cols store t.topline.toNat), t.cx, t.cy⟩

end Plumb

namespace Plumb

/- ---------------------------------------------------------------- -/
/- Helper lemmas: line store.                                        -/
/- ---------------------------------------------------------------- -/

lemma pushByte_length (l : List GoBytes) (b : Nat) :
    (pushByte l b).length = l.length := by
  induction l with
  | nil => rfl
  | cons x xs ih =>
    cases xs with
    | nil => rfl
    | cons y ys => simpa [pushByte] using ih

lemma writeBytes_length (p : GoBytes) (lines : List GoBytes) :
    (writeBytes lines p).length = lines.length + p.count 10 := by
  induction p generalizing lines with
  | nil => simp [writeBytes]
  | cons b p ih =>
    have h1 : writeBytes lines (b :: p) = writeBytes (lineWriteStep lines b) p := rfl
    rw [h1, ih]
    by_cases hb : b = 10
    · subst hb
      simp [lineWriteStep, List.count_cons]
      try omega
    · simp [lineWriteStep, hb, pushByte_length, List.count_cons]
      try omega

lemma write_lines_length (l : LineReader) (p : GoBytes) (h : l.lines ≠ []) :
    (l.Write p).lines.length = l.lines.length + p.count 10 := by
  cases hl : l.lines with
  | nil => exact absurd hl h
  | cons a as => simp [LineReader.Write, hl, writeBytes_length]

lemma write_empty_lines_length (p : GoBytes) :
    (LineReader.Write ⟨[]⟩ p).lines.length = 1 + p.count 10 := by
  simp [LineReader.Write, writeBytes_length]
  try omega

lemma writeAll_rows (ps : List GoBytes) :
    ∀ l : LineReader, l.lines ≠ [] →
      (writeAll l ps).Rows = l.lines.length + (ps.map (fun p => p.count 10)).sum := by
  induction ps with
  | nil => intro l _; simp [writeAll, LineReader.Rows]
  | cons p ps ih =>
    intro l h
    have h1 : writeAll l (p :: ps) = writeAll (l.Write p) ps := rfl
    have hlen : (l.Write p).lines.length = l.lines.length + p.count 10 :=
      write_lines_length l p h
    have h2 : (l.Write p).lines ≠ [] := by
      have hpos : 0 < l.lines.length := List.length_pos.mpr h
      have : 0 < (l.Write p).lines.length := by omega
      exact List.length_pos.mp this
    rw [h1, ih _ h2, hlen]
    simp
    omega

/- ---------------------------------------------------------------- -/
/- C5 and C6: line store behaviour.                                  -/
/- ---------------------------------------------------------------- -/

/-- C5: appending the bytes of a backslash-n separated buffer a, b, c with
no trailing newline to an empty store yields count 3, line 2 is the
in-progress line c, and every index at or past the count yields the
not-found error (the store itself is a pure value here, so lookups leave
it unchanged by construction). -/
theorem lineStore_abc_scenario :
    (LineReader.Write ⟨[]⟩ [97, 10, 98, 10, 99]).Rows = 3 ∧
    (LineReader.Write ⟨[]⟩ [97, 10, 98, 10, 99]).Line 2 = some [99] ∧
    (LineReader.Write ⟨[]⟩ [97, 10, 98, 10, 99]).Line 3 = none ∧
    ∀ i : Nat, 3 ≤ i → (LineReader.Write ⟨[]⟩ [97, 10, 98, 10, 99]).Line i = none := by
  refine ⟨by decide, by decide, by decide, ?_⟩
  intro i hi
  have hlen : (LineReader.Write ⟨[]⟩ [97, 10, 98, 10, 99]).lines.length = 3 := by decide
  simp [LineReader.Line, hlen, hi]

/-- Witness for the quantified part of the C5 theorem at index 5. -/
theorem lineStore_abc_scenario_witness :
    3 ≤ 5 ∧ (LineReader.Write ⟨[]⟩ [97, 10, 98, 10, 99]).Line 5 = none :=
  ⟨by decide, lineStore_abc_scenario.2.2.2 5 (by decide)⟩

/-- C6 counterexample: after appending exactly the two bytes a and newline
to an empty store, count is 2, not 1 as the claim states — the store
materialises the empty in-progress trailing line as soon as the newline
arrives, before that line has received any byte. -/
theorem rows_trailing_counterexample :
    (LineReader.Write ⟨[]⟩ [97, 10]).Rows = 2 ∧
    (LineReader.Write ⟨[]⟩ [97, 10]).Rows ≠ 1 := by
  decide

/-- C6 amended: for every nonempty sequence of append calls on an initially
empty store, count equals one plus the number of newline bytes appended:
the trailing in-progress line is counted as soon as the first append call
happens (even while still empty), not only once it receives a byte. -/
theorem rows_newline_count_amended (ps : List GoBytes) (h : ps ≠ []) :
    (writeAll ⟨[]⟩ ps).Rows = 1 + (ps.map (fun p => p.count 10)).sum := by
  cases ps with
  | nil => exact absurd rfl h
  | cons p ps =>
    have h1 : writeAll ⟨[]⟩ (p :: ps) = writeAll (LineReader.Write ⟨[]⟩ p) ps := rfl
    have hlen : (LineReader.Write ⟨[]⟩ p).lines.length = 1 + p.count 10 :=
      write_empty_lines_length p
    have h2 : (LineReader.Write ⟨[]⟩ p).lines ≠ [] := by
      have : 0 < (LineReader.Write ⟨[]⟩ p).lines.length := by omega
      exact List.length_pos.mp this
    rw [h1, writeAll_rows ps _ h2, hlen]
    simp
    omega

/-- Witness for the C6 amended theorem on the single append of a newline
terminated byte. -/
theorem rows_newline_count_amended_witness :
    (writeAll ⟨[]⟩ [[97, 10]]).Rows =
      1 + (([[97, 10]] : List GoBytes).map (fun p => p.count 10)).sum :=
  rows_newline_count_amended [[97, 10]] (by decide)

/- ---------------------------------------------------------------- -/
/- C3: decoder escape tables.                                        -/
/- ---------------------------------------------------------------- -/

/-- C3: the decoder maps the fixed escape tables as specified: CSI letter
sequences to the arrows and Home and End, CSI digit tilde sequences per
the digit lookup table, and SS3 H and F to Home and End. -/
theorem readKey_escape_tables :
    readKey [27, 91, 65] = (ArrowUp, none) ∧
    readKey [27, 91, 66] = (ArrowDown, none) ∧
    readKey [27, 91, 67] = (ArrowRight, none) ∧
    readKey [27, 91, 68] = (ArrowLeft, none) ∧
    readKey [27, 91, 72] = (HomeKey, none) ∧
    readKey [27, 91, 70] = (EndKey, none) ∧
    readKey [27, 91, 49, 126] = (HomeKey, none) ∧
    readKey [27, 91, 55, 126] = (HomeKey, none) ∧
    readKey [27, 91, 51, 126] = (DelKey, none) ∧
    readKey [27, 91, 52, 126] = (EndKey, none) ∧
    readKey [27, 91, 56, 126] = (EndKey, none) ∧
    readKey [27, 91, 53, 126] = (PageUp, none) ∧
    readKey [27, 91, 54, 126] = (PageDown, none) ∧
    readKey [27, 79, 72] = (HomeKey, none) ∧
    readKey [27, 79, 70] = (EndKey, none) := by
  decide

end Plumb

namespace Plumb

/- ---------------------------------------------------------------- -/
/- Helper lemmas: key decoder.                                       -/
/- ---------------------------------------------------------------- -/

lemma decodeRune_ascii (b0 : Nat) (rest : List Nat) (h0 : b0 < 128) :
    decodeRune (b0 :: rest) = (b0, 1) := by
  simp [decodeRune, h0]

lemma decodeRune_esc (b0 : Nat) (rest : List Nat)
    (h : (decodeRune (b0 :: rest)).1 = 27) : b0 = 27 := by
  by_cases h0 : b0 < 128
  · rw [decodeRune_ascii b0 rest h0] at h
    exact h
  · exfalso
    rcases rest with _ | ⟨b1, rest1⟩
    · simp only [decodeRune, if_neg h0] at h
      split_ifs at h <;> simp at h
    · rcases rest1 with _ | ⟨b2, rest2⟩
      · simp only [decodeRune, if_neg h0] at h
        split_ifs at h <;> (simp at h; try omega)
      · rcases rest2 with _ | ⟨b3, rest3⟩
        · simp only [decodeRune, if_neg h0] at h
          split_ifs at h <;> (simp at h; try omega)
        · simp only [decodeRune, if_neg h0] at h
          split_ifs at h <;> (simp at h; try omega)

lemma readRune_cons_esc (t : List Nat) : readRune (27 :: t) = some (27, t) := by
  simp [readRune, decodeRune]

lemma readRune_not_esc (b0 : Nat) (rest : List Nat) (h : b0 ≠ 27) :
    ∃ r t, readRune (b0 :: rest) = some (r, t) ∧ r ≠ 27 := by
  refine ⟨(decodeRune (b0 :: rest)).1, (b0 :: rest).drop (decodeRune (b0 :: rest)).2, ?_, ?_⟩
  · simp [readRune]
  · intro hr
    exact h (decodeRune_esc b0 rest hr)

end Plumb


namespace Plumb
lemma readKey_esc_cons (b1 b2 : Nat) (r2 : List Nat) :
    readKey (27 :: b1 :: b2 :: r2) =
      (if b1 = 91 then
        if 48 ≤ b2 ∧ b2 ≤ 57 then
          match readRune r2 with
          | none => ((27 : Int), some RErr.eof)
          | some (rc, _) =>
            if rc ≠ 126 then ((27 : Int), none)
            else if b2 = 49 then (HomeKey, none)
            else if b2 = 51 then (DelKey, none)
            else if b2 = 52 then (EndKey, none)
            else if b2 = 53 then (PageUp, none)
            else if b2 = 54 then (PageDown, none)
            else if b2 = 55 then (HomeKey, none)
            else if b2 = 56 then (EndKey, none)
            else ((27 : Int), none)
        else
          if b2 = 65 then (ArrowUp, none)
          else if b2 = 66 then (ArrowDown, none)
          else if b2 = 67 then (ArrowRight, none)
          else if b2 = 68 then (ArrowLeft, none)
          else if b2 = 72 then (HomeKey, none)
          else if b2 = 70 then (EndKey, none)
          else ((27 : Int), none)
      else if b1 = 79 then
        if b2 = 72 then (HomeKey, none)
        else if b2 = 70 then (EndKey, none)
        else ((27 : Int), none)
      else ((27 : Int), none)) := by
  rfl

lemma readKey_esc_digit_eof (b2 : Nat) (hd : 48 ≤ b2 ∧ b2 ≤ 57) :
    readKey [27, 91, b2] = (27, some RErr.eof) := by
  rw [readKey_esc_cons, if_pos rfl, if_pos hd]
  rfl

lemma readKey_esc_pair_snd (b1 b2 : Nat) (r2 : List Nat)
    (h : ¬(b1 = 91 ∧ (48 ≤ b2 ∧ b2 ≤ 57) ∧ r2 = [])) :
    (readKey (27 :: b1 :: b2 :: r2)).2 = none := by
  rw [readKey_esc_cons]
  by_cases hb1 : b1 = 91
  · subst hb1
    rw [if_pos rfl]
    by_cases hd : 48 ≤ b2 ∧ b2 ≤ 57
    · rw [if_pos hd]
      match r2 with
      | [] => exact absurd ⟨rfl, hd, rfl⟩ h
      | c :: r3 =>
        split
        · rename_i heq
          simp [readRune] at heq
        · split_ifs <;> rfl
    · rw [if_neg hd]
      split_ifs <;> rfl
  · rw [if_neg hb1]
    by_cases hb9 : b1 = 79
    · rw [if_pos hb9]
      split_ifs <;> rfl
    · rw [if_neg hb9]

/- ---------------------------------------------------------------- -/
/- C4: decoder error behaviour.                                      -/
/- ---------------------------------------------------------------- -/

/-- C4 counterexample: on the input escape byte followed by a single
available byte, readKey returns the decoder error could-not-read-sequence,
which is not a failure of the underlying byte source (the continuation
read delivered one byte without error): the claim that a non-nil error
arises only when a source read itself fails is false on the code. -/
theorem readKey_short_read_counterexample :
    readKey [27, 65] = (-1, some RErr.badSeq) ∧ RErr.badSeq ≠ RErr.eof := by
  decide

/-- C4 amended: readKey returns a non-nil error exactly when the input is
empty (source EOF on the first rune read), is the escape byte alone
(source EOF on the continuation read), is the escape byte plus exactly one
available continuation byte (a short read, surfaced as the decoder error
could-not-read-sequence rather than a source failure), or is escape, open
bracket and a digit with nothing after (source EOF on the tilde read); an
escape byte followed by two available but unrecognized continuation bytes
yields the literal escape event with no error. -/
theorem readKey_error_amended (l : List Nat) :
    (((readKey l).2 ≠ none) ↔
      (l = [] ∨ l = [27] ∨ (∃ b, l = [27, b]) ∨
        ∃ b2, (48 ≤ b2 ∧ b2 ≤ 57) ∧ l = [27, 91, b2])) ∧
    ∀ b1 b2 r2, ¬ recognizedPair b1 b2 →
      readKey (27 :: b1 :: b2 :: r2) = (27, none) := by
  constructor
  · match l with
    | [] => simp [readKey, readRune]
    | b0 :: rest =>
      by_cases hb : b0 = 27
      · subst hb
        match rest with
        | [] => simp [readKey, readRune_cons_esc]
        | [b] => simp [readKey, readRune_cons_esc]
        | b1 :: b2 :: r2 =>
          by_cases hfull : b1 = 91 ∧ (48 ≤ b2 ∧ b2 ≤ 57) ∧ r2 = []
          · obtain ⟨hb1, hd, hr2⟩ := hfull
            subst hb1
            subst hr2
            rw [readKey_esc_digit_eof b2 hd]
            refine iff_of_true (by simp) ?_
            exact Or.inr (Or.inr (Or.inr ⟨b2, hd, rfl⟩))
          · refine iff_of_false (by rw [readKey_esc_pair_snd b1 b2 r2 hfull]; simp) ?_
            rintro (h | h | ⟨b, h⟩ | ⟨c2, hc2, h⟩)
            · exact List.cons_ne_nil 27 _ h
            · simp only [List.cons.injEq, and_true] at h
              exact List.cons_ne_nil b1 _ h.2
            · simp only [List.cons.injEq, and_true] at h
              exact List.cons_ne_nil b2 _ h.2.2
            · simp only [List.cons.injEq] at h
              obtain ⟨-, hb1e, hbc, hr2e⟩ := h
              subst hbc
              exact hfull ⟨hb1e, hc2, hr2e⟩
      · obtain ⟨r, t, hrt, hr⟩ := readRune_not_esc b0 rest hb
        simp only [readKey, hrt]
        rw [if_pos hr]
        refine iff_of_false (by simp) ?_
        rintro (h | h | ⟨b, h⟩ | ⟨c2, hc2, h⟩)
        · exact List.cons_ne_nil b0 _ h
        · simp only [List.cons.injEq] at h
          exact hb h.1
        · simp only [List.cons.injEq] at h
          exact hb h.1
        · simp only [List.cons.injEq] at h
          exact hb h.1
  · intro b1 b2 r2 hn
    unfold recognizedPair at hn
    rw [readKey_esc_cons]
    by_cases hb1 : b1 = 91
    · subst hb1
      rw [if_pos rfl]
      have hc : ¬((48 ≤ b2 ∧ b2 ≤ 57) ∨ b2 = 65 ∨ b2 = 66 ∨ b2 = 67 ∨
          b2 = 68 ∨ b2 = 72 ∨ b2 = 70) := fun c => hn (Or.inl ⟨rfl, c⟩)
      rw [if_neg (fun hd => hc (Or.inl hd)),
        if_neg (fun h => hc (Or.inr (Or.inl h))),
        if_neg (fun h => hc (Or.inr (Or.inr (Or.inl h)))),
        if_neg (fun h => hc (Or.inr (Or.inr (Or.inr (Or.inl h))))),
        if_neg (fun h => hc (Or.inr (Or.inr (Or.inr (Or.inr (Or.inl h)))))),
        if_neg (fun h => hc (Or.inr (Or.inr (Or.inr (Or.inr (Or.inr (Or.inl h))))))),
        if_neg (fun h => hc (Or.inr (Or.inr (Or.inr (Or.inr (Or.inr (Or.inr h)))))))]
    · rw [if_neg hb1]
      by_cases hb9 : b1 = 79
      · subst hb9
        rw [if_pos rfl,
          if_neg (fun h => hn (Or.inr ⟨rfl, Or.inl h⟩)),
          if_neg (fun h => hn (Or.inr ⟨rfl, Or.inr h⟩))]
      · rw [if_neg hb9]

/-- Witness for the C4 amended theorem: the unrecognized continuation pair
65, 66 after an escape yields the literal escape event with no error. -/
theorem readKey_error_amended_witness :
    readKey [27, 65, 66] = (27, none) :=
  (readKey_error_amended [27, 65, 66]).2 65 66 [] (by decide)

end Plumb

namespace Plumb

/- ---------------------------------------------------------------- -/
/- Helper lemmas: viewport controller.                               -/
/- ---------------------------------------------------------------- -/

lemma inv_moveCursor (rows : Int) (n : Nat) (k : Key) (t : Term)
    (h : Inv rows t) : Inv rows (moveCursor rows n k t) := by
  obtain ⟨cx, cy, sel, top⟩ := t
  obtain ⟨h1, h2, h3, h4⟩ := h
  simp only [Inv] at *
  cases k <;> simp only [moveCursor] <;>
    try exact ⟨h1, h2, h3, h4⟩
  all_goals
    split_ifs <;> refine ⟨?_, ?_, ?_, ?_⟩ <;> dsimp at * <;> omega

lemma inv_timesLoop (rows : Int) (f : Term → Term)
    (hf : ∀ t, Inv rows t → Inv rows (f t)) :
    ∀ (k : Nat) (t : Term), Inv rows t → Inv rows (timesLoop f k t) := by
  intro k
  induction k with
  | zero => intro t h; exact h
  | succ k ih => intro t h; exact ih (f t) (hf t h)

lemma inv_keypressMove (rows : Int) (n : Nat) (ev : Key) (t : Term)
    (h : Inv rows t) : Inv rows (keypressMove rows n ev t) := by
  cases ev <;> simp only [keypressMove]
  · exact inv_moveCursor rows n Key.arrowUp t h
  · exact inv_moveCursor rows n Key.arrowDown t h
  · exact inv_timesLoop rows _ (fun s hs => inv_moveCursor rows n Key.arrowUp s hs) _ t h
  · exact inv_timesLoop rows _ (fun s hs => inv_moveCursor rows n Key.arrowDown s hs) _ t h
  · exact h
  · exact h
  · exact h

lemma inv_reachable (rows : Int) (hrows : 1 ≤ rows) (t : Term)
    (hr : Reachable rows t) : Inv rows t := by
  induction hr with
  | init => refine ⟨?_, ?_, ?_, ?_⟩ <;> dsimp <;> omega
  | step k n _ ih => exact inv_keypressMove rows n k _ ih

lemma timesLoop_eq_iterate (f : Term → Term) (k : Nat) (t : Term) :
    timesLoop f k t = f^[k] t := by
  induction k generalizing t with
  | zero => rfl
  | succ k ih => rw [timesLoop, ih, Function.iterate_succ_apply]

/- ---------------------------------------------------------------- -/
/- C1: viewport invariant after every navigation transition.         -/
/- ---------------------------------------------------------------- -/

/-- C1: from every state reachable from the all-zero state with a terminal
height of at least one, every single keypress transition (ArrowUp,
ArrowDown, PageUp, PageDown, or any other event, which is a no-op) leaves
the viewport invariant top at most selected and selected strictly below
top plus rows, for every current line count. -/
theorem nav_transition_viewport_invariant (rows : Int) (hrows : 1 ≤ rows)
    (t : Term) (hr : Reachable rows t) (k : Key) (n : Nat) :
    (keypressMove rows n k t).topline ≤ (keypressMove rows n k t).selline ∧
    (keypressMove rows n k t).selline < (keypressMove rows n k t).topline + rows := by
  have h := inv_keypressMove rows n k t (inv_reachable rows hrows t hr)
  obtain ⟨h1, h2, h3, h4⟩ := h
  omega

/-- Witness for C1: one ArrowDown on the initial state with one terminal
row and five lines available. -/
theorem nav_transition_viewport_invariant_witness :
    (keypressMove 1 5 Key.arrowDown ⟨0, 0, 0, 0⟩).topline ≤
      (keypressMove 1 5 Key.arrowDown ⟨0, 0, 0, 0⟩).selline ∧
    (keypressMove 1 5 Key.arrowDown ⟨0, 0, 0, 0⟩).selline <
      (keypressMove 1 5 Key.arrowDown ⟨0, 0, 0, 0⟩).topline + 1 :=
  nav_transition_viewport_invariant 1 (by decide) ⟨0, 0, 0, 0⟩
    Reachable.init Key.arrowDown 5

/- ---------------------------------------------------------------- -/
/- C2: MoveDown transition behaviour.                                -/
/- ---------------------------------------------------------------- -/

/-- C2 counterexample: in the state with selected 3 and top 5 and five
lines in the store, the selection is not at the last known line (3 is
below 4), yet ArrowDown is a no-op because of the additional guard
topline at least count minus one in the code; the claim quantified over
every state is therefore false. -/
theorem moveDown_guard_counterexample :
    moveCursor 5 5 Key.arrowDown ⟨0, 0, 3, 5⟩ = ⟨0, 0, 3, 5⟩ ∧
    (⟨0, 0, 3, 5⟩ : Term).selline < (5 : Int) - 1 := by
  decide

/-- C2 amended: for every state satisfying the coupling facts cy equal to
selected minus top and top at most selected (which hold on all reachable
states), ArrowDown is a no-op when selected is at or past the last known
line, and otherwise increments selected by one and increments top by one
exactly when the selection would fall outside the bottom edge of the
window; the two spec scenarios hold concretely. -/
theorem moveDown_amended (rows : Int) (n : Nat) (t : Term)
    (hcy : t.cy = t.selline - t.topline) (h0 : 0 ≤ t.cy) :
    ((t.selline ≥ (n : Int) - 1 → moveCursor rows n Key.arrowDown t = t) ∧
      (t.selline < (n : Int) - 1 →
        (moveCursor rows n Key.arrowDown t).selline = t.selline + 1 ∧
        (moveCursor rows n Key.arrowDown t).topline =
          t.topline + (if t.selline + 1 - t.topline ≥ rows then 1 else 0) ∧
        (moveCursor rows n Key.arrowDown t).cx = t.cx)) ∧
    moveCursor 5 6 Key.arrowDown ⟨0, 4, 4, 0⟩ = ⟨0, 4, 5, 1⟩ ∧
    moveCursor 10 3 Key.arrowDown (moveCursor 10 3 Key.arrowDown ⟨0, 0, 0, 0⟩) =
      ⟨0, 2, 2, 0⟩ ∧
    moveCursor 10 3 Key.arrowDown ⟨0, 2, 2, 0⟩ = ⟨0, 2, 2, 0⟩ := by
  refine ⟨⟨?_, ?_⟩, by decide, by decide, by decide⟩
  · intro hge
    obtain ⟨cx, cy, sel, top⟩ := t
    simp only [moveCursor]
    rw [if_pos hge]
  · intro hlt
    obtain ⟨cx, cy, sel, top⟩ := t
    dsimp at hcy h0 hlt
    simp only [moveCursor]
    rw [if_neg (by omega), if_neg (by omega)]
    by_cases hcond : cy ≥ rows - 1
    · rw [if_pos hcond]
      refine ⟨rfl, ?_, rfl⟩
      dsimp
      rw [if_pos (by omega)]
    · rw [if_neg hcond]
      refine ⟨rfl, ?_, rfl⟩
      dsimp
      rw [if_neg (by omega)]
      omega

/-- Witness for C2 amended at the first spec scenario state. -/
theorem moveDown_amended_witness :
    (moveCursor 5 6 Key.arrowDown ⟨0, 4, 4, 0⟩).selline = (4 : Int) + 1 ∧
    (moveCursor 5 6 Key.arrowDown ⟨0, 4, 4, 0⟩).topline =
      (0 : Int) + (if (4 : Int) + 1 - 0 ≥ 5 then 1 else 0) := by
  have h := (moveDown_amended 5 6 ⟨0, 4, 4, 0⟩ (by decide) (by decide)).1.2 (by decide)
  exact ⟨h.1, h.2.1⟩

/- ---------------------------------------------------------------- -/
/- C9: page keys iterate the single-line moves.                      -/
/- ---------------------------------------------------------------- -/

/-- C9: the state effect of one PageUp keypress equals iterating the
ArrowUp moveCursor transition rows times, and likewise PageDown iterates
ArrowDown rows times. -/
theorem page_keys_iterate (rows : Int) (n : Nat) (t : Term) :
    keypressMove rows n Key.pgUp t =
      (moveCursor rows n Key.arrowUp)^[rows.toNat] t ∧
    keypressMove rows n Key.pgDn t =
      (moveCursor rows n Key.arrowDown)^[rows.toNat] t :=
  ⟨timesLoop_eq_iterate _ _ _, timesLoop_eq_iterate _ _ _⟩

/- ---------------------------------------------------------------- -/
/- C10: coupling invariant and the drawn cursor row.                 -/
/- ---------------------------------------------------------------- -/

/-- C10: every moveCursor transition from a reachable state preserves the
coupling invariant cy equal to selected minus top with top nonnegative and
cy between zero and rows minus one, and the cursor row of every rendered
frame for the new state equals selected minus top. -/
theorem moveCursor_coupling_invariant (rows : Int) (hrows : 1 ≤ rows)
    (t : Term) (hr : Reachable rows t) (k : Key) (n : Nat) :
    Inv rows (moveCursor rows n k t) ∧
    ∀ (R C : Nat) (store : LineReader),
      (draw R C store (moveCursor rows n k t)).cursorY =
        (moveCursor rows n k t).selline - (moveCursor rows n k t).topline := by
  have hinv := inv_moveCursor rows n k t (inv_reachable rows hrows t hr)
  refine ⟨hinv, ?_⟩
  intro R C store
  have hY : (draw R C store (moveCursor rows n k t)).cursorY =
      (moveCursor rows n k t).cy := rfl
  rw [hY, hinv.1]

/-- Witness for C10: ArrowDown on the initial state, rendered on a one by
one terminal with an empty store. -/
theorem moveCursor_coupling_invariant_witness :
    Inv 1 (moveCursor 1 5 Key.arrowDown ⟨0, 0, 0, 0⟩) ∧
    (draw 1 1 ⟨[]⟩ (moveCursor 1 5 Key.arrowDown ⟨0, 0, 0, 0⟩)).cursorY =
      (moveCursor 1 5 Key.arrowDown ⟨0, 0, 0, 0⟩).selline -
        (moveCursor 1 5 Key.arrowDown ⟨0, 0, 0, 0⟩).topline := by
  have h := moveCursor_coupling_invariant 1 (by decide) ⟨0, 0, 0, 0⟩
    Reachable.init Key.arrowDown 5
  exact ⟨h.1, h.2 1 1 ⟨[]⟩⟩

end Plumb

namespace Plumb

/- ---------------------------------------------------------------- -/
/- Helper lemmas: renderer.                                          -/
/- ---------------------------------------------------------------- -/

lemma expandLine_tab_mid (pre post : GoBytes) :
    expandLine (pre ++ 9 :: post) =
      expandLine pre ++ (List.replicate 8 spaceCell ++ expandLine post) := by
  induction pre with
  | nil => simp [expandLine]
  | cons r rest ih =>
    by_cases hr : r = 9
    · subst hr
      simp [expandLine, ih]
    · simp [expandLine, hr, ih]

lemma expandLine_default (line : GoBytes) (c : Cell) (hc : c ∈ expandLine line) :
    c.fg = 0 ∧ c.bg = 0 := by
  induction line with
  | nil => simp [expandLine] at hc
  | cons r rest ih =>
    by_cases hr : r = 9
    · subst hr
      have hx : expandLine (9 :: rest) = List.replicate 8 spaceCell ++ expandLine rest := by
        simp [expandLine]
      rw [hx, List.mem_append] at hc
      rcases hc with hc | hc
      · rw [List.eq_of_mem_replicate hc]
        exact ⟨rfl, rfl⟩
      · exact ih hc
    · have hx : expandLine (r :: rest) = ⟨r, 0, 0⟩ :: expandLine rest := by
        simp [expandLine, hr]
      rw [hx, List.mem_cons] at hc
      rcases hc with hc | hc
      · rw [hc]
        exact ⟨rfl, rfl⟩
      · exact ih hc

lemma drawRow_default (cols : Nat) (store : LineReader) (top y : Nat) (c : Cell)
    (hc : c ∈ drawRow cols store top y) : c.fg = 0 ∧ c.bg = 0 := by
  unfold drawRow at hc
  cases hline : store.Line (y + top) with
  | none =>
    rw [hline] at hc
    simp only [List.mem_replicate] at hc
    rw [hc.2]
    exact ⟨rfl, rfl⟩
  | some line =>
    rw [hline] at hc
    simp only [List.mem_append, List.mem_replicate] at hc
    rcases hc with hc | ⟨-, hc⟩
    · exact expandLine_default line c hc
    · rw [hc]
      exact ⟨rfl, rfl⟩

/- ---------------------------------------------------------------- -/
/- C7: tab rendering.                                                -/
/- ---------------------------------------------------------------- -/

/-- C7 counterexample: rendering the line a tab b, column 8 holds a space
and the rune b sits at column 9, not at column 8 as the 8-column tab stop
scheme of the claim would require. -/
theorem tab_stop_counterexample :
    (drawRow 12 (LineReader.Write ⟨[]⟩ [97, 9, 98]) 0 0).getD 8 spaceCell = spaceCell ∧
    (drawRow 12 (LineReader.Write ⟨[]⟩ [97, 9, 98]) 0 0).getD 8 spaceCell ≠ ⟨98, 0, 0⟩ ∧
    (drawRow 12 (LineReader.Write ⟨[]⟩ [97, 9, 98]) 0 0).getD 9 spaceCell = ⟨98, 0, 0⟩ := by
  decide

/-- C7 amended: the renderer expands every tab to exactly eight space
cells regardless of the current column (not to the next 8-column tab
stop): in general a tab in the middle of a line contributes eight spaces
between the expansions of the surrounding parts, and for the line a tab b
the rune a occupies column 0, columns 1 through 8 are spaces, and b
occupies column 9. -/
theorem tab_expansion_amended :
    (∀ pre post : GoBytes,
      expandLine (pre ++ 9 :: post) =
        expandLine pre ++ (List.replicate 8 spaceCell ++ expandLine post)) ∧
    drawRow 12 (LineReader.Write ⟨[]⟩ [97, 9, 98]) 0 0 =
      ⟨97, 0, 0⟩ :: (List.replicate 8 spaceCell ++
        (⟨98, 0, 0⟩ :: List.replicate 2 spaceCell)) :=
  ⟨fun pre post => expandLine_tab_mid pre post, by decide⟩

/- ---------------------------------------------------------------- -/
/- C8: selection highlighting.                                       -/
/- ---------------------------------------------------------------- -/

/-- C8 counterexample: with two lines a and b, selected 0 and top 0, the
rendered frame carries the default attribute pair on every cell of both
rows, so the row at position selected minus top is not drawn with any
reverse-video toggle distinguishing it from the other row; the claim is
false on the code. -/
theorem draw_highlight_counterexample :
    (draw 2 4 (LineReader.Write ⟨[]⟩ [97, 10, 98]) ⟨0, 0, 0, 0⟩).grid.map
        (fun row => row.map (fun c => (c.fg, c.bg))) =
      [List.replicate 4 (0, 0), List.replicate 4 (0, 0)] := by
  decide

/-- C8 amended: the renderer draws every cell of every row with the
default foreground and background attributes (no reverse-video highlight
anywhere); the selection is indicated solely by placing the terminal
cursor at the cursor column and cursor row of the state. -/
theorem draw_no_highlight_amended (R C : Nat) (store : LineReader) (t : Term) :
    (∀ row ∈ (draw R C store t).grid, ∀ c ∈ row, c.fg = 0 ∧ c.bg = 0) ∧
    (draw R C store t).cursorX = t.cx ∧
    (draw R C store t).cursorY = t.cy := by
  refine ⟨?_, rfl, rfl⟩
  intro row hrow c hc
  simp only [draw, List.mem_map, List.mem_range] at hrow
  obtain ⟨y, hy, hroweq⟩ := hrow
  subst hroweq
  exact drawRow_default C store t.topline.toNat y c hc

/-- Witness for C8 amended: the single blank cell of a one by one frame
over the empty store has default attributes, and the cursor row is the cy
of the state. -/
theorem draw_no_highlight_amended_witness :
    ((⟨32, 0, 0⟩ : Cell).fg = 0 ∧ (⟨32, 0, 0⟩ : Cell).bg = 0) ∧
    (draw 1 1 ⟨[]⟩ ⟨0, 0, 0, 0⟩).cursorY = (0 : Int) := by
  have h := draw_no_highlight_amended 1 1 ⟨[]⟩ ⟨0, 0, 0, 0⟩
  refine ⟨h.1 (List.replicate 1 spaceCell) (by decide) ⟨32, 0, 0⟩ (by decide), h.2.2⟩

end Plumb
